import Mathlib

/-!
Verification development for the `timescam/input-tools` repository.

The repository contains two near-duplicate variants of one evolving
component:
  * `src/src/utils.ts` + `src/src/input-tools.tsx`
  * `src/unnamed/part_000` (a `utils.ts` variant) + `src/unnamed/part_002`
    (an `input-tools.tsx` variant)

This file gives a shallow embedding of the text segmenter, the JSONP
response decoder, the suggestion-URL builder with its bounded FIFO cache,
the pagination engine and the input state machine, and proves or refutes
the specification claims about them.

Strings are modelled as Lean `String`s (lists of Unicode scalar values).
JavaScript iterates either by UTF-16 code unit (`charCodeAt`, the
`part_000` segmenter) or by code point (`for...of`, the `utils.ts`
segmenter); for every function embedded here the two views are
extensionally equal, because the relevant character classes (the CJK block
U+4E00–U+9FFF, the ASCII digits, parentheses, whitespace) are all outside
the surrogate range, and the two code units of an astral code point are
always handled identically and adjacently.  Individual definitions note
the spot where that matters.
-/

/-- Character class `[一-鿿]` of `CHINESE_REGEX` in
`src/src/utils.ts` line 2 and of the `code >= 0x4e00 && code <= 0x9fff`
test in `src/unnamed/part_000` line 58. -/
def isCjk (c : Char) : Bool :=
  decide (0x4e00 ≤ c.toNat ∧ c.toNat ≤ 0x9fff)

/-- Character class `[0-9]` of `NUMERIC_REGEX` in `src/src/utils.ts`
line 3 and of the `code < 48 || code > 57` test (negated) in
`src/unnamed/part_000` line 60. -/
def isAsciiDigit (c : Char) : Bool :=
  decide (48 ≤ c.toNat ∧ c.toNat ≤ 57)

/-- Whitespace set of JavaScript `String.prototype.trim`: tab, line feed,
vertical tab, form feed, carriage return, space, NBSP, the Unicode
space separators, the line/paragraph separators and the byte-order mark. -/
def jsWhitespaceList : List Char :=
  [Char.ofNat 0x09, Char.ofNat 0x0A, Char.ofNat 0x0B, Char.ofNat 0x0C,
   Char.ofNat 0x0D, Char.ofNat 0x20, Char.ofNat 0xA0, Char.ofNat 0x1680,
   Char.ofNat 0x2000, Char.ofNat 0x2001, Char.ofNat 0x2002, Char.ofNat 0x2003,
   Char.ofNat 0x2004, Char.ofNat 0x2005, Char.ofNat 0x2006, Char.ofNat 0x2007,
   Char.ofNat 0x2008, Char.ofNat 0x2009, Char.ofNat 0x200A, Char.ofNat 0x2028,
   Char.ofNat 0x2029, Char.ofNat 0x202F, Char.ofNat 0x205F, Char.ofNat 0x3000,
   Char.ofNat 0xFEFF]

/-- Tests membership in the JavaScript `trim` whitespace set. -/
def isJsWhite (c : Char) : Bool :=
  jsWhitespaceList.contains c

/-- Embedding of JavaScript `String.prototype.trim`: drop whitespace from
both ends. -/
def jsTrim (s : String) : String :=
  ⟨((s.data.dropWhile isJsWhite).reverse.dropWhile isJsWhite).reverse⟩

/-- Embedding of JavaScript `Array.prototype.slice(start, end)` with its
negative-index and clamping semantics (ECMA-262). -/
def jsSlice {α : Type} (l : List α) (s e : Int) : List α :=
  let len : Int := l.length
  let s' := (if s < 0 then max (len + s) 0 else min s len).toNat
  let e' := (if e < 0 then max (len + e) 0 else min e len).toNat
  (l.drop s').take (e' - s')

/-- Single pass of the loop in `separateChineseAndEnglish` of
`src/unnamed/part_000` lines 56-63: a CJK character goes to `chinese`, a
character that is not an ASCII digit goes to `english`, an ASCII digit is
dropped. -/
def sepChars : List Char → List Char × List Char
  | [] => ([], [])
  | c :: rest =>
    let r := sepChars rest
    if isCjk c then (c :: r.1, r.2)
    else if isAsciiDigit c then r
    else (r.1, c :: r.2)

/-- Embedding of `separateChineseAndEnglish` from `src/unnamed/part_000`
lines 50-66 (the charCode-based variant).  The `if (!text)` guard of
line 51 is the `text = ""` branch; for the empty string it agrees with the
loop.  The source loops over UTF-16 units; a surrogate unit is never CJK
and never a digit, so both units of an astral code point land in `english`
adjacently, which is exactly what the per-code-point model does. -/
def separateChineseAndEnglish (text : String) : String × String :=
  if text = "" then ("", "")
  else
    let r := sepChars text.data
    (⟨r.1⟩, ⟨r.2⟩)

/-- Single step of the loop in `separateChineseAndEnglish` of
`src/src/utils.ts` lines 60-70 (the regex-based variant).  The state is
`(chinese, english, numericLastIndexIsOne)`.  `CHINESE_REGEX.test` always
sees `lastIndex = 0` (the code resets it after a hit and the engine resets
it after a miss), so the CJK test is stateless.  `NUMERIC_REGEX.test` is
reset only in the `else if` branch, i.e. only after a *miss* (where the
engine resets `lastIndex` anyway); after a *hit* `lastIndex` stays at 1,
and a test started at index 1 of a one-code-point string always fails (for
a two-unit astral character it inspects the low surrogate, which is not a
digit).  So the numeric test succeeds exactly when the previous numeric
test did not succeed and the character is an ASCII digit. -/
def sepStep (acc : List Char × List Char × Bool) (ch : Char) :
    List Char × List Char × Bool :=
  if isCjk ch then (acc.1 ++ [ch], acc.2.1, acc.2.2)
  else if !acc.2.2 && isAsciiDigit ch then (acc.1, acc.2.1, true)
  else (acc.1, acc.2.1 ++ [ch], false)

/-- Embedding of `separateChineseAndEnglish` from `src/src/utils.ts`
lines 53-73, with the module-level `NUMERIC_REGEX.lastIndex` state made
explicit: `n = true` means `lastIndex` is 1 (the previous `test` against a
digit succeeded).  The `if (!text)` early return of line 54 leaves the
regex state untouched. -/
def separateG (n : Bool) (text : String) : String × String × Bool :=
  if text = "" then ("", "", n)
  else
    let r := text.data.foldl sepStep ([], [], n)
    (⟨r.1⟩, ⟨r.2.1⟩, r.2.2)

/-!
JSON values as produced by `JSON.parse`.  Numbers keep their source
lexeme: `JSON.parse` turns the lexeme into an IEEE double, but no code
path of the repository ever inspects a numeric value, so the lexeme is a
faithful stand-in.  Objects keep their entries in source order (for
duplicate keys `JSON.parse` keeps the last value; no code path of the
repository inspects object contents, so the difference is unobservable
here).
-/
inductive Json where
  | null : Json
  | bool (b : Bool) : Json
  | num (raw : String) : Json
  | str (s : String) : Json
  | arr (items : List Json) : Json
  | obj (entries : List (String × Json)) : Json

/-- JSON insignificant whitespace: space, tab, line feed, carriage
return. -/
def skipWs (cs : List Char) : List Char :=
  cs.dropWhile (fun c => c == ' ' || c == '\t' || c == '\n' || c == '\r')

/-- Value of one hexadecimal digit. -/
def hexVal : Char → Option Nat
  | c =>
    if isAsciiDigit c then some (c.toNat - 48)
    else if 97 ≤ c.toNat ∧ c.toNat ≤ 102 then some (c.toNat - 87)
    else if 65 ≤ c.toNat ∧ c.toNat ≤ 70 then some (c.toNat - 55)
    else none

/-- Scalar value for a (possibly invalid) UTF-16 code unit coming out of a
`\uXXXX` escape.  A lone surrogate is a valid JavaScript string element
but not a Unicode scalar value; it is mapped to U+FFFD here (no claim
depends on such inputs). -/
def charOfUnit (n : Nat) : Char :=
  if 0xD800 ≤ n ∧ n ≤ 0xDFFF then Char.ofNat 0xFFFD else Char.ofNat n

/-- Body of a JSON string literal, after the opening quote.  Mirrors the
`JSON.parse` string grammar: raw control characters below U+0020 are
rejected, the short escapes and `\uXXXX` are decoded, and a high/low
surrogate escape pair is combined into one code point. -/
def parseStringBody : Nat → List Char → List Char → Option (String × List Char)
  | 0, _, _ => none
  | fuel + 1, acc, cs =>
    match cs with
    | [] => none
    | '"' :: rest => some (⟨acc⟩, rest)
    | '\\' :: esc :: rest =>
      match esc with
      | '"' => parseStringBody fuel (acc ++ ['"']) rest
      | '\\' => parseStringBody fuel (acc ++ ['\\']) rest
      | '/' => parseStringBody fuel (acc ++ ['/']) rest
      | 'b' => parseStringBody fuel (acc ++ [Char.ofNat 0x08]) rest
      | 'f' => parseStringBody fuel (acc ++ [Char.ofNat 0x0C]) rest
      | 'n' => parseStringBody fuel (acc ++ [Char.ofNat 0x0A]) rest
      | 'r' => parseStringBody fuel (acc ++ [Char.ofNat 0x0D]) rest
      | 't' => parseStringBody fuel (acc ++ [Char.ofNat 0x09]) rest
      | 'u' =>
        match rest with
        | h1 :: h2 :: h3 :: h4 :: rest2 =>
          match hexVal h1, hexVal h2, hexVal h3, hexVal h4 with
          | some a, some b, some c, some d =>
            let code := ((a * 16 + b) * 16 + c) * 16 + d
            if 0xD800 ≤ code ∧ code ≤ 0xDBFF then
              match rest2 with
              | '\\' :: 'u' :: g1 :: g2 :: g3 :: g4 :: rest3 =>
                match hexVal g1, hexVal g2, hexVal g3, hexVal g4 with
                | some a2, some b2, some c2, some d2 =>
                  let low := ((a2 * 16 + b2) * 16 + c2) * 16 + d2
                  if 0xDC00 ≤ low ∧ low ≤ 0xDFFF then
                    let cp := 0x10000 + (code - 0xD800) * 0x400 + (low - 0xDC00)
                    parseStringBody fuel (acc ++ [Char.ofNat cp]) rest3
                  else parseStringBody fuel (acc ++ [charOfUnit code]) rest2
                | _, _, _, _ => parseStringBody fuel (acc ++ [charOfUnit code]) rest2
              | _ => parseStringBody fuel (acc ++ [charOfUnit code]) rest2
            else parseStringBody fuel (acc ++ [charOfUnit code]) rest2
          | _, _, _, _ => none
        | _ => none
      | _ => none
    | c :: rest =>
      if c.toNat < 0x20 then none
      else parseStringBody fuel (acc ++ [c]) rest

/-- Fractional part of the JSON number grammar (`.` followed by at least
one digit), appended to the lexeme collected so far. -/
def parseFrac (lex : List Char) (cs : List Char) :
    Option (List Char × List Char) :=
  match cs with
  | '.' :: r =>
    let ds := r.takeWhile isAsciiDigit
    if ds.isEmpty then none
    else some (lex ++ '.' :: ds, r.dropWhile isAsciiDigit)
  | _ => some (lex, cs)

/-- Exponent part of the JSON number grammar (`e`/`E`, optional sign, at
least one digit), appended to the lexeme collected so far. -/
def parseExp (lex : List Char) (cs : List Char) :
    Option (List Char × List Char) :=
  match cs with
  | c :: r =>
    if c = 'e' ∨ c = 'E' then
      let signAndRest :=
        match r with
        | s :: r2 => if s = '+' ∨ s = '-' then ([s], r2) else (([] : List Char), r)
        | [] => (([] : List Char), r)
      let ds := signAndRest.2.takeWhile isAsciiDigit
      if ds.isEmpty then none
      else some (lex ++ c :: (signAndRest.1 ++ ds),
                 signAndRest.2.dropWhile isAsciiDigit)
    else some (lex, cs)
  | [] => some (lex, cs)

/-- JSON number grammar: optional minus, then `0` or a nonzero digit
followed by digits, then optional fraction and exponent.  Returns the
lexeme. -/
def parseNumber (cs : List Char) : Option (String × List Char) :=
  let minusAndRest :=
    match cs with
    | '-' :: r => (['-'], r)
    | _ => (([] : List Char), cs)
  match minusAndRest.2 with
  | '0' :: r =>
    match parseFrac (minusAndRest.1 ++ ['0']) r with
    | none => none
    | some (lex2, r2) =>
      match parseExp lex2 r2 with
      | none => none
      | some (lex3, r3) => some (⟨lex3⟩, r3)
  | c :: r =>
    if isAsciiDigit c then
      let ds := r.takeWhile isAsciiDigit
      match parseFrac (minusAndRest.1 ++ c :: ds) (r.dropWhile isAsciiDigit) with
      | none => none
      | some (lex2, r2) =>
        match parseExp lex2 r2 with
        | none => none
        | some (lex3, r3) => some (⟨lex3⟩, r3)
    else none
  | [] => none

mutual

/-- One JSON value, starting at the head of the input (leading whitespace
already skipped by the caller). -/
def parseVal : Nat → List Char → Option (Json × List Char)
  | 0, _ => none
  | fuel + 1, cs =>
    match cs with
    | 'n' :: 'u' :: 'l' :: 'l' :: rest => some (.null, rest)
    | 't' :: 'r' :: 'u' :: 'e' :: rest => some (.bool true, rest)
    | 'f' :: 'a' :: 'l' :: 's' :: 'e' :: rest => some (.bool false, rest)
    | '"' :: rest =>
      match parseStringBody (rest.length + 1) [] rest with
      | some (s, rest2) => some (.str s, rest2)
      | none => none
    | '[' :: rest =>
      match skipWs rest with
      | ']' :: rest2 => some (.arr [], rest2)
      | r => parseArrItems fuel [] r
    | '{' :: rest =>
      match skipWs rest with
      | '}' :: rest2 => some (.obj [], rest2)
      | r => parseObjItems fuel [] r
    | _ =>
      match parseNumber cs with
      | some (lex, rest) => some (.num lex, rest)
      | none => none

/-- Elements of a non-empty JSON array, separated by commas. -/
def parseArrItems : Nat → List Json → List Char → Option (Json × List Char)
  | 0, _, _ => none
  | fuel + 1, acc, cs =>
    match parseVal fuel cs with
    | none => none
    | some (v, rest) =>
      match skipWs rest with
      | ',' :: rest2 => parseArrItems fuel (acc ++ [v]) (skipWs rest2)
      | ']' :: rest2 => some (.arr (acc ++ [v]), rest2)
      | _ => none

/-- Entries of a non-empty JSON object, separated by commas. -/
def parseObjItems : Nat → List (String × Json) → List Char →
    Option (Json × List Char)
  | 0, _, _ => none
  | fuel + 1, acc, cs =>
    match cs with
    | '"' :: rest =>
      match parseStringBody (rest.length + 1) [] rest with
      | none => none
      | some (key, rest1) =>
        match skipWs rest1 with
        | ':' :: rest2 =>
          match parseVal fuel (skipWs rest2) with
          | none => none
          | some (v, rest3) =>
            match skipWs rest3 with
            | ',' :: rest4 => parseObjItems fuel (acc ++ [(key, v)]) (skipWs rest4)
            | '}' :: rest4 => some (.obj (acc ++ [(key, v)]), rest4)
            | _ => none
        | _ => none
    | _ => none

end

/-- Embedding of `JSON.parse`: one value surrounded by optional
whitespace, nothing left over.  The fuel `2 * length + 4` dominates the
recursion depth of the mutual parser (along any call chain at least one
input character is consumed per two fuel units). -/
def jsonParse (s : String) : Option Json :=
  match parseVal (2 * s.data.length + 4) (skipWs s.data) with
  | some (v, rest) => if (skipWs rest).isEmpty then some v else none
  | none => none

/-- Line terminators, which `.` in a JavaScript regex (without the `s`
flag) does not match. -/
def isLineTerm (c : Char) : Bool :=
  c == '\n' || c == '\r' || c.toNat == 0x2028 || c.toNat == 0x2029

/-- Search of `JSONP_MATCH_REGEX = /\((.+)\)$/` (`src/src/utils.ts`
line 4): the regex engine tries start positions left to right; a start
position matches when it holds `(`, the whole text ends in `)`, and the
characters strictly between — the capture group, matched by `.+` — are
non-empty and free of line terminators.  The group always runs to the
penultimate character because `$` anchors the closing `\)` at the end. -/
def findParenGroup : List Char → Option (List Char)
  | [] => none
  | c :: rest =>
    if c = '(' then
      match rest.getLast? with
      | some ')' =>
        let interior := rest.dropLast
        if interior.isEmpty then findParenGroup rest
        else if interior.all (fun ch => !isLineTerm ch) then some interior
        else findParenGroup rest
      | _ => findParenGroup rest
    else findParenGroup rest

/-- Capture group of the first match of `JSONP_MATCH_REGEX`. -/
def jsonpMatch (text : String) : Option String :=
  (findParenGroup text.data).map fun g => (⟨g⟩ : String)

/-- Capture group of the first match of
`JSONP_ALT_MATCH_REGEX = /.*?\((.+)\)$/` (`src/src/utils.ts` line 5).
The lazy prefix `.*?` may be empty at any start position, so this pattern
matches at a position exactly when `\((.+)\)$` does, with the same capture
group; the two searches are the same function. -/
def jsonpAltMatch (text : String) : Option String :=
  jsonpMatch text

/-- Envelope extraction of `parseSuggestionsResponse`
(`src/src/utils.ts` lines 11-18): try the strict pattern, then the
fallback pattern. -/
def jsonpEnvelope (text : String) : Option String :=
  match jsonpMatch text with
  | some g => some g
  | none => jsonpAltMatch text

/-- Error taxonomy of the response decoder; each constructor corresponds
to one `throw new Error(...)` site of `parseSuggestionsResponse`
(`src/src/utils.ts` lines 16, 24, 28, 34).  `ProviderError` carries the
non-`"SUCCESS"` status value interpolated into the message. -/
inductive DecodeError where
  | MalformedEnvelope : DecodeError
  | MalformedPayload : DecodeError
  | UnexpectedShape : DecodeError
  | ProviderError (status : Json) : DecodeError

/-- Loop body of the extraction in `parseSuggestionsResponse`
(`src/src/utils.ts` lines 42-46): a group that is an array of length at
least 2 whose second element is an array contributes that array's
members, in order; every other group is skipped. -/
def pushGroup (acc : List Json) (item : Json) : List Json :=
  match item with
  | .arr (_ :: .arr cands :: _) => acc ++ cands
  | _ => acc

/-- Extraction from the data payload (`src/src/utils.ts` lines 39-47):
iterate over the groups when the payload is an array, else produce
nothing.  At runtime `suggestions.push(...item[1])` copies whatever
values the provider sent, so the output is a list of JSON values. -/
def extractSuggestions : Json → List Json
  | .arr groups => groups.foldl pushGroup []
  | _ => []

/-- Test `status !== "SUCCESS"` (negated) of `src/src/utils.ts` line 33:
strict equality with the string literal. -/
def statusIsSuccess : Json → Bool
  | .str s => s == "SUCCESS"
  | _ => false

/-- Payload handling of `parseSuggestionsResponse` (`src/src/utils.ts`
lines 20-49): `JSON.parse` the extracted substring, require an array of
length at least 2 (`const [status, data] = jsonData` reads elements 0
and 1 and ignores the rest), require status `"SUCCESS"`, then collect the
candidate groups. -/
def decodePayload (payload : String) : Except DecodeError (List Json) :=
  match jsonParse payload with
  | none => .error .MalformedPayload
  | some jsonData =>
    match jsonData with
    | .arr (status :: data :: _) =>
      if statusIsSuccess status then .ok (extractSuggestions data)
      else .error (.ProviderError status)
    | _ => .error .UnexpectedShape

/-- Embedding of `parseSuggestionsResponse` from `src/src/utils.ts`
lines 8-50 (identical in `src/unnamed/part_000` lines 6-48): extract the
parenthesized payload with the strict-then-fallback patterns, then decode
it. -/
def parseSuggestionsResponse (jsonpText : String) :
    Except DecodeError (List Json) :=
  match jsonpEnvelope jsonpText with
  | none => .error .MalformedEnvelope
  | some payload => decodePayload payload

/-- Candidates contributed by one group, in the words of the claim: the
second-element array of a group that is an array of length at least 2
whose second element is an array, and nothing otherwise. -/
def groupCandidates : Json → List Json
  | .arr (_ :: .arr cands :: _) => cands
  | _ => []

/-- Concatenation, in encounter order, of every group's candidates, in
the words of the claim; a non-array payload has no groups. -/
def specConcat : Json → List Json
  | .arr groups => (groups.map groupCandidates).flatten
  | _ => []

/-- Characters left unescaped by JavaScript `encodeURIComponent`:
alphanumerics and `- _ . ! ~ * ' ( )`. -/
def isUriUnreserved (c : Char) : Bool :=
  decide ((65 ≤ c.toNat ∧ c.toNat ≤ 90) ∨ (97 ≤ c.toNat ∧ c.toNat ≤ 122)
    ∨ (48 ≤ c.toNat ∧ c.toNat ≤ 57)
    ∨ c.toNat = 45 ∨ c.toNat = 95 ∨ c.toNat = 46 ∨ c.toNat = 33
    ∨ c.toNat = 126 ∨ c.toNat = 42 ∨ c.toNat = 39 ∨ c.toNat = 40
    ∨ c.toNat = 41)

/-- Uppercase hexadecimal digit, as used by percent-encoding. -/
def hexDigitChar (n : Nat) : Char :=
  if n < 10 then Char.ofNat (48 + n) else Char.ofNat (55 + n)

/-- UTF-8 bytes of a Unicode scalar value. -/
def utf8Bytes (n : Nat) : List Nat :=
  if n < 0x80 then [n]
  else if n < 0x800 then [0xC0 + n / 64, 0x80 + n % 64]
  else if n < 0x10000 then
    [0xE0 + n / 4096, 0x80 + (n / 64) % 64, 0x80 + n % 64]
  else
    [0xF0 + n / 262144, 0x80 + (n / 4096) % 64, 0x80 + (n / 64) % 64,
     0x80 + n % 64]

/-- Percent-encoding of one byte. -/
def pctByte (b : Nat) : List Char :=
  ['%', hexDigitChar (b / 16), hexDigitChar (b % 16)]

/-- Embedding of JavaScript `encodeURIComponent`: unreserved characters
pass through, every other character is replaced by the percent-encoding
of its UTF-8 bytes.  (On a lone surrogate `encodeURIComponent` throws;
lone surrogates are not representable in `Char`, so that case does not
arise in the model.) -/
def encodeURIComponent (s : String) : String :=
  ⟨(s.data.map fun c =>
      if isUriUnreserved c then [c] else ((utf8Bytes c.toNat).map pctByte).flatten).flatten⟩

/-- The fixed callback name of `src/src/utils.ts` line 91. -/
def callbackName : String := "_callbacks____raycast"

/-- URL template of `src/src/utils.ts` line 93 applied to an input
string. -/
def urlFor (input : String) : String :=
  "https://inputtools.google.com/request?text=" ++ encodeURIComponent input
    ++ "&itc=yue-hant-t-i0-und&num=13&cp=0&cs=1&ie=utf-8&oe=utf-8&app=jsapi&cb="
    ++ callbackName

/-- The module-level `urlCache` `Map` (`src/src/utils.ts` line 76),
modelled as its entry list in insertion order (a JavaScript `Map`
iterates keys in insertion order; `delete` removes an entry in place and
`set` of an absent key appends). -/
abbrev UrlCache : Type := List (String × String)

/-- Fresh cache at module load. -/
def emptyCache : UrlCache := []

/-- First-match association lookup, the `Map.has`/`Map.get` pair of
`src/src/utils.ts` lines 84-85. -/
def cacheLookup : UrlCache → String → Option String
  | [], _ => none
  | (k, v) :: rest, key => if k = key then some v else cacheLookup rest key

/-- Canonical input of `src/src/utils.ts` line 80:
`chinese ? `|${chinese},${english}` : english`, where an absent or empty
`chinese` is falsy. -/
def cacheInput (english : String) (chinese : Option String) : String :=
  match chinese with
  | some c => if c = "" then english else "|" ++ c ++ "," ++ english
  | none => english

/-- Embedding of `buildSuggestionsUrl` from `src/src/utils.ts`
lines 79-106 (identical in `src/unnamed/part_000` lines 72-99), with the
module-level cache passed and returned explicitly.  On a cache hit the
cached locator is returned unchanged.  On a miss the locator is built
from the template; if the cache already holds `MAX_CACHE_SIZE = 100`
entries the first key is deleted — but only when that key is truthy, so
an empty-string oldest key is never evicted (`if (firstKey)` at
line 99) — and the new entry is appended. -/
def buildSuggestionsUrl (english : String) (chinese : Option String)
    (cache : UrlCache) : String × UrlCache :=
  let input := cacheInput english chinese
  match cacheLookup cache input with
  | some url => (url, cache)
  | none =>
    let url := urlFor input
    let cache1 :=
      if 100 ≤ cache.length then
        match cache.head? with
        | some (firstKey, _) =>
          if firstKey = "" then cache
          else cache.filter fun e => e.1 ≠ firstKey
        | none => cache
      else cache
    (url, cache1 ++ [(input, url)])

/-- State of the cache after a sequence of builder calls. -/
def runCalls (calls : List (String × Option String)) (cache : UrlCache) :
    UrlCache :=
  calls.foldl (fun c call => (buildSuggestionsUrl call.1 call.2 c).2) cache

/-- State of the cache after inserting each key as a plain query (the
canonical key of `(k, none)` is `k` itself). -/
def insertCalls (keys : List String) (cache : UrlCache) : UrlCache :=
  keys.foldl (fun c k => (buildSuggestionsUrl k none c).2) cache

/-- Every cached locator is the one the template produces for its key. -/
def cacheWf (cache : UrlCache) : Prop :=
  ∀ e ∈ cache, e.2 = urlFor e.1

/-- Invariant maintained by insertions of non-empty keys: bounded size,
no empty key, pairwise-distinct keys. -/
def cacheInv (cache : UrlCache) : Prop :=
  cache.length ≤ 100 ∧ (∀ e ∈ cache, e.1 ≠ "") ∧ (cache.map Prod.fst).Nodup

/-- Concrete 101 distinct canonical keys whose first key is the empty
string (the builder reaches it via an empty query with no retained
context). -/
def cKeys : List String :=
  "" :: (List.range 100).map fun i => String.mk ['b', Char.ofNat (100 + i)]

/-- Concrete tail of 100 distinct non-empty keys for the claim C9
witness. -/
def wKeys : List String :=
  (List.range 100).map fun i => String.mk ['a', Char.ofNat (100 + i)]

/-- Result record of the `usePagination` hook (`src/src/input-tools.tsx`
lines 65-82; split across `usePaginationCalculations` and
`usePaginationState` in `src/unnamed/part_002` lines 75-99, with the same
formulas). -/
structure Pagination where
  totalPages : Int
  hasNextPage : Bool
  hasPreviousPage : Bool
  startIndex : Int
  endIndex : Int
  currentPage : Int
deriving DecidableEq

/-- Embedding of the pagination computation.  `Math.ceil(totalItems /
safeItemsPerPage)` on integer inputs with `safeItemsPerPage ≥ 1` is
rendered as `-(-totalItems / safeItemsPerPage)` (`-⌊-x⌋ = ⌈x⌉`, and `/`
on `Int` is floor division for a positive divisor); the rational-ceiling
reading of the claim is proved equal in `claim_C5`. -/
def usePagination (totalItems itemsPerPage currentPage : Int) : Pagination :=
  let safeItemsPerPage := max 1 itemsPerPage
  let totalPages := max 1 (-(-totalItems / safeItemsPerPage))
  let safePage := min currentPage (totalPages - 1)
  { totalPages := totalPages
    hasNextPage := decide (safePage < totalPages - 1)
    hasPreviousPage := decide (0 < safePage)
    startIndex := safePage * safeItemsPerPage
    endIndex := (safePage + 1) * safeItemsPerPage
    currentPage := safePage }

/-- React state of the `InputTools` component (`src/src/input-tools.tsx`
lines 86-92 and `src/unnamed/part_002` lines 122-128) together with the
module-level `NUMERIC_REGEX.lastIndex` of the regex segmenter it calls:
the live buffer `searchText`, the `hasSelectedSuggestion` flag, the
`currentPage` index, and the decoded `suggestions` held by the fetch
hook (typed `string[]` in the source). -/
structure AppState where
  searchText : String
  hasSelectedSuggestion : Bool
  currentPage : Int
  suggestions : List String
  numericLastIndex : Bool
deriving DecidableEq

/-- `SUGGESTIONS_PER_PAGE` of `src/src/input-tools.tsx` line 19. -/
def SUGGESTIONS_PER_PAGE : Int := 6

/-- `NUMERIC_KEYS` of `src/src/input-tools.tsx` line 25. -/
def NUMERIC_KEYS : List Char := ['1', '2', '3', '4', '5', '6', '9', '0']

/-- Embedding of `paginatedSuggestions` (`src/src/input-tools.tsx`
lines 142-150): the slice of the suggestion list for the current page
(the `map` to `{id, text, index}` records only decorates positions, so
the slice of texts is kept). -/
def paginatedSuggestions (st : AppState) : List String :=
  if st.suggestions.isEmpty then []
  else
    let p := usePagination (st.suggestions.length : Int) SUGGESTIONS_PER_PAGE
      st.currentPage
    jsSlice st.suggestions p.startIndex p.endIndex

/-- Embedding of `goToNextPage` (`src/src/input-tools.tsx`
lines 170-174). -/
def goToNextPage (st : AppState) : AppState :=
  let p := usePagination (st.suggestions.length : Int) SUGGESTIONS_PER_PAGE
    st.currentPage
  if p.hasNextPage then
    { st with currentPage := min (st.currentPage + 1) (p.totalPages - 1) }
  else st

/-- Embedding of `goToPreviousPage` (`src/src/input-tools.tsx`
lines 176-180). -/
def goToPreviousPage (st : AppState) : AppState :=
  let p := usePagination (st.suggestions.length : Int) SUGGESTIONS_PER_PAGE
    st.currentPage
  if p.hasPreviousPage then
    { st with currentPage := max (st.currentPage - 1) 0 }
  else st

/-- Embedding of `handleSuggestionSelect` (`src/src/input-tools.tsx`
lines 183-199): re-segment the buffer as it stood before this event
(the `searchText` captured by the callback), set the buffer to
`chinese + suggestion.text`, mark a selection, and optimistically clear
the fetched suggestion list (`mutate` to `[]` with no revalidation). -/
def handleSuggestionSelect (st : AppState) (suggestionText : String) :
    AppState :=
  let r := separateG st.numericLastIndex st.searchText
  { searchText := r.1 ++ suggestionText
    hasSelectedSuggestion := true
    currentPage := st.currentPage
    suggestions := []
    numericLastIndex := r.2.2 }

/-- Embedding of `handleNumericAction` (`src/src/input-tools.tsx`
lines 202-250).  `text.slice(-1)` is the last character.  `SELECTION_REGEX
= /^(.*?)([1-6]|9|0)$/` is anchored at both ends with a one-character
group 2, so against a text whose last character is in `NUMERIC_KEYS` it
matches exactly when every character of the lazy `(.*?)` base — all of the
text but the last character — is matchable by `.`, i.e. is not a line
terminator; on a match, `baseText` is that base and `num` the digit value
of the last character, and on a failed match the handler returns false
(`if (!numberMatch) return false`).  `none` models `return false` (no
state change); `some` models `return true` with the updated state. -/
def handleNumericAction (st : AppState) (text : String) : Option AppState :=
  match text.data.getLast? with
  | none => none
  | some lastChar =>
    if lastChar ∈ NUMERIC_KEYS then
      if text.data.dropLast.all (fun ch => !isLineTerm ch) then
        let baseText : String := ⟨text.data.dropLast⟩
        let num : Nat := lastChar.toNat - 48
        if 1 ≤ num ∧ num ≤ 6 then
          match (paginatedSuggestions st)[num - 1]? with
          | some suggestionText =>
            some (handleSuggestionSelect st suggestionText)
          | none => none
        else if num = 0 then
          if (usePagination (st.suggestions.length : Int) SUGGESTIONS_PER_PAGE
              st.currentPage).hasNextPage then
            some { goToNextPage st with searchText := baseText }
          else none
        else if num = 9 then
          if (usePagination (st.suggestions.length : Int) SUGGESTIONS_PER_PAGE
              st.currentPage).hasPreviousPage then
            some { goToPreviousPage st with searchText := baseText }
          else none
        else none
      else none
    else none

/-- Embedding of `handleSearchTextChange` (`src/src/input-tools.tsx`
lines 253-271): an empty-after-trim text clears the selection flag; a
handled numeric action returns early; otherwise the buffer becomes
`chinese + english` of the event text (stray digits are dropped).  The
queued React state updates of one event commute into this sequential
form because the numeric handler reads only closure values of the
render, which the flag reset does not touch. -/
def handleSearchTextChange (st : AppState) (text : String) : AppState :=
  let st1 := if jsTrim text = "" then { st with hasSelectedSuggestion := false }
    else st
  match handleNumericAction st1 text with
  | some st2 => st2
  | none =>
    let r := separateG st1.numericLastIndex text
    { st1 with searchText := r.1 ++ r.2.1, numericLastIndex := r.2.2 }

/-- Embedding of the `suggestionsUrl` memo (`src/src/input-tools.tsx`
lines 103-110, `src/unnamed/part_002` lines 140-147): no locator for a
blank debounced buffer or a blank query segment, otherwise the cached
builder result; returns the locator, the regex state and the cache. -/
def suggestionsUrl (numericLastIndex : Bool) (debouncedSearchText : String)
    (cache : UrlCache) : String × Bool × UrlCache :=
  if jsTrim debouncedSearchText = "" then ("", numericLastIndex, cache)
  else
    let r := separateG numericLastIndex debouncedSearchText
    if jsTrim r.2.1 = "" then ("", r.2.2, cache)
    else
      let b := buildSuggestionsUrl r.2.1 (some r.1) cache
      (b.1, r.2.2, b.2)

/-- The `execute: !!suggestionsUrl` flag passed to the fetch hook
(`src/src/input-tools.tsx` line 119). -/
def executeFetch (url : String) : Bool :=
  url ≠ ""

theorem sepChars_eq_filter (l : List Char) :
    sepChars l =
      (l.filter isCjk, l.filter (fun c => !isCjk c && !isAsciiDigit c)) := by
  induction l with
  | nil => rfl
  | cons c rest ih =>
    by_cases hc : isCjk c
    · simp [sepChars, ih, List.filter_cons, hc]
    · by_cases hd : isAsciiDigit c
      · simp [sepChars, ih, List.filter_cons, hc, hd]
      · simp [sepChars, ih, List.filter_cons, hc, hd]

/-- The chinese component of the regex-based single pass is the CJK filter
regardless of the numeric-regex state. -/
theorem foldl_sepStep_fst (l : List Char) (c e : List Char) (b : Bool) :
    (l.foldl sepStep (c, e, b)).1 = c ++ l.filter isCjk := by
  induction l generalizing c e b with
  | nil => simp
  | cons ch rest ih =>
    by_cases hc : isCjk ch
    · simp [sepStep, hc, ih, List.filter_cons]
    · by_cases hn : !b && isAsciiDigit ch
      · simp [sepStep, hc, hn, ih, List.filter_cons]
      · simp [sepStep, hc, hn, ih, List.filter_cons]

/-- Claim C1: for every input, the part_000 segmenter sends exactly the
CJK characters (in order) to `retained` and exactly the non-CJK non-digit
characters (in order) to `query`, and the empty input yields two empty
strings — this is the claimed partition property.  The first conjunct
shows that the `src/src/utils.ts` variant violates the claim: on the input
`"12"` its stale `NUMERIC_REGEX.lastIndex` lets the second consecutive
digit leak into the query segment. -/
theorem claim_C1 :
    separateG false "12" = ("", "2", false)
    ∧ (∀ text : String,
        (separateChineseAndEnglish text).1.data = text.data.filter isCjk
        ∧ (separateChineseAndEnglish text).2.data =
            text.data.filter (fun c => !isCjk c && !isAsciiDigit c))
    ∧ separateChineseAndEnglish "" = ("", "") := by
  refine ⟨by decide, ?_, rfl⟩
  intro text
  by_cases h : text = ""
  · subst h; exact ⟨rfl, rfl⟩
  · simp only [separateChineseAndEnglish, h, if_false, sepChars_eq_filter]
    exact ⟨trivial, trivial⟩

theorem pushGroup_eq (acc : List Json) (item : Json) :
    pushGroup acc item = acc ++ groupCandidates item := by
  match item with
  | .null | .bool _ | .num _ | .str _ | .obj _ =>
    simp [pushGroup, groupCandidates]
  | .arr [] => simp [pushGroup, groupCandidates]
  | .arr [_] => simp [pushGroup, groupCandidates]
  | .arr (x :: y :: rest) => cases y <;> simp [pushGroup, groupCandidates]

theorem foldl_pushGroup (l : List Json) (acc : List Json) :
    l.foldl pushGroup acc = acc ++ (l.map groupCandidates).flatten := by
  induction l generalizing acc with
  | nil => simp
  | cons x xs ih => simp [List.foldl_cons, pushGroup_eq, ih]

/-- The imperative extraction loop computes the claimed concatenation. -/
theorem extractSuggestions_eq_specConcat (data : Json) :
    extractSuggestions data = specConcat data := by
  cases data <;> simp [extractSuggestions, specConcat, foldl_pushGroup]

theorem jsonpEnvelope_none_iff (text : String) :
    jsonpEnvelope text = none ↔
      jsonpMatch text = none ∧ jsonpAltMatch text = none := by
  cases m : jsonpMatch text <;> simp [jsonpEnvelope, jsonpAltMatch, m]

theorem statusIsSuccess_iff (st : Json) :
    statusIsSuccess st = true ↔ st = .str "SUCCESS" := by
  cases st <;> simp [statusIsSuccess]

/-- After a successful envelope extraction the decoder is the payload
decoder. -/
theorem parseSuggestionsResponse_some (text s : String)
    (h : jsonpEnvelope text = some s) :
    parseSuggestionsResponse text = decodePayload s := by
  unfold parseSuggestionsResponse
  rw [h]

/-- Claim C3: under a callback-wrapped JSON array whose element 0 is the
string `"SUCCESS"`, the decoder returns exactly the concatenation, in
encounter order, of the second-element array of every well-shaped group
of element 1, skipping all other groups; the documented round-trip
example decodes to `["唔","五","午"]`; an empty data payload yields an
empty sequence. -/
theorem claim_C3 :
    (∀ (text s : String) (data : Json) (rest : List Json),
        jsonpEnvelope text = some s →
        jsonParse s = some (.arr (.str "SUCCESS" :: data :: rest)) →
        parseSuggestionsResponse text = .ok (specConcat data))
    ∧ parseSuggestionsResponse
        "/*API*/_callbacks____x([\"SUCCESS\",[[\"m\",[\"唔\",\"五\",\"午\"],[],{}]]])"
        = .ok [.str "唔", .str "五", .str "午"]
    ∧ (∀ (text s : String) (rest : List Json),
        jsonpEnvelope text = some s →
        jsonParse s = some (.arr (.str "SUCCESS" :: .arr [] :: rest)) →
        parseSuggestionsResponse text = .ok []) := by
  have main : ∀ (text s : String) (data : Json) (rest : List Json),
      jsonpEnvelope text = some s →
      jsonParse s = some (.arr (.str "SUCCESS" :: data :: rest)) →
      parseSuggestionsResponse text = .ok (specConcat data) := by
    intro text s data rest henv hparse
    rw [parseSuggestionsResponse_some text s henv]
    unfold decodePayload
    rw [hparse]
    simp [statusIsSuccess, extractSuggestions_eq_specConcat]
  refine ⟨main, by rfl, ?_⟩
  intro text s rest henv hparse
  simpa [specConcat] using main text s (.arr []) rest henv hparse

/-- Witness for claim C3 at the documented round-trip response text. -/
theorem claim_C3_witness :
    jsonpEnvelope
        "/*API*/_callbacks____x([\"SUCCESS\",[[\"m\",[\"唔\",\"五\",\"午\"],[],{}]]])"
      = some "[\"SUCCESS\",[[\"m\",[\"唔\",\"五\",\"午\"],[],{}]]]"
    ∧ jsonParse "[\"SUCCESS\",[[\"m\",[\"唔\",\"五\",\"午\"],[],{}]]]"
      = some (.arr [.str "SUCCESS",
          .arr [.arr [.str "m", .arr [.str "唔", .str "五", .str "午"],
                      .arr [], .obj []]]])
    ∧ parseSuggestionsResponse
        "/*API*/_callbacks____x([\"SUCCESS\",[[\"m\",[\"唔\",\"五\",\"午\"],[],{}]]])"
      = .ok (specConcat
          (.arr [.arr [.str "m", .arr [.str "唔", .str "五", .str "午"],
                       .arr [], .obj []]])) :=
  ⟨rfl, rfl,
    claim_C3.1
      "/*API*/_callbacks____x([\"SUCCESS\",[[\"m\",[\"唔\",\"五\",\"午\"],[],{}]]])"
      "[\"SUCCESS\",[[\"m\",[\"唔\",\"五\",\"午\"],[],{}]]]"
      (.arr [.arr [.str "m", .arr [.str "唔", .str "五", .str "午"],
                   .arr [], .obj []]])
      [] rfl rfl⟩

/-- Claim C4: the decoder's error taxonomy — `MalformedEnvelope` exactly
when neither JSONP pattern matches, `MalformedPayload` exactly when the
extracted substring is not valid JSON, `UnexpectedShape` exactly when the
parsed JSON is not an array of length at least 2, `ProviderError`
carrying the status exactly when element 0 is not `"SUCCESS"` (with the
documented `FAILURE` example), and a normal return in all other cases. -/
theorem claim_C4 :
    (∀ text : String,
        parseSuggestionsResponse text = .error .MalformedEnvelope ↔
          (jsonpMatch text = none ∧ jsonpAltMatch text = none))
    ∧ (∀ text s : String,
        jsonpEnvelope text = some s →
        (parseSuggestionsResponse text = .error .MalformedPayload ↔
          jsonParse s = none))
    ∧ (∀ (text s : String) (j : Json),
        jsonpEnvelope text = some s → jsonParse s = some j →
        (parseSuggestionsResponse text = .error .UnexpectedShape ↔
          ∀ (a b : Json) (rest : List Json), j ≠ .arr (a :: b :: rest)))
    ∧ (∀ (text s : String) (status data : Json) (rest : List Json),
        jsonpEnvelope text = some s →
        jsonParse s = some (.arr (status :: data :: rest)) →
        (parseSuggestionsResponse text = .error (.ProviderError status) ↔
          status ≠ .str "SUCCESS"))
    ∧ parseSuggestionsResponse "([\"FAILURE\",\"quota exceeded\"])"
        = .error (.ProviderError (.str "FAILURE"))
    ∧ (∀ (text s : String) (status data : Json) (rest : List Json),
        jsonpEnvelope text = some s →
        jsonParse s = some (.arr (status :: data :: rest)) →
        status = .str "SUCCESS" →
        ∃ out, parseSuggestionsResponse text = .ok out) := by
  refine ⟨?_, ?_, ?_, ?_, by rfl, ?_⟩
  · intro text
    cases h : jsonpEnvelope text with
    | none =>
      rw [← jsonpEnvelope_none_iff]
      unfold parseSuggestionsResponse
      rw [h]
      simp [h]
    | some s =>
      rw [parseSuggestionsResponse_some text s h]
      constructor
      · intro hcontra
        exfalso
        revert hcontra
        unfold decodePayload
        cases hp : jsonParse s with
        | none => simp
        | some j =>
          match j with
          | .null | .bool _ | .num _ | .str _ | .obj _ => simp
          | .arr [] => simp
          | .arr [_] => simp
          | .arr (st :: d :: r) =>
            by_cases hs : statusIsSuccess st <;> simp [hs]
      · intro hcontra
        exfalso
        have hnone : jsonpEnvelope text = none :=
          (jsonpEnvelope_none_iff text).mpr hcontra
        rw [h] at hnone
        exact Option.noConfusion hnone
  · intro text s h
    rw [parseSuggestionsResponse_some text s h]
    unfold decodePayload
    cases hp : jsonParse s with
    | none => simp
    | some j =>
      match j with
      | .null | .bool _ | .num _ | .str _ | .obj _ => simp
      | .arr [] => simp
      | .arr [_] => simp
      | .arr (st :: d :: r) =>
        by_cases hs : statusIsSuccess st <;> simp [hs]
  · intro text s j h hp
    rw [parseSuggestionsResponse_some text s h]
    unfold decodePayload
    rw [hp]
    match j with
    | .null | .bool _ | .num _ | .str _ | .obj _ => simp
    | .arr [] => simp
    | .arr [_] => simp
    | .arr (st :: d :: r) =>
      by_cases hs : statusIsSuccess st <;> simp [hs]
  · intro text s status data rest h hp
    rw [parseSuggestionsResponse_some text s h]
    unfold decodePayload
    rw [hp]
    by_cases hs : statusIsSuccess status
    · have heq : status = .str "SUCCESS" := (statusIsSuccess_iff status).mp hs
      simp [hs, heq, statusIsSuccess]
    · have hne : status ≠ .str "SUCCESS" := by
        intro he
        exact hs ((statusIsSuccess_iff status).mpr he)
      simp [hs, hne]
  · intro text s status data rest h hp hsucc
    rw [parseSuggestionsResponse_some text s h]
    unfold decodePayload
    rw [hp, hsucc]
    exact ⟨extractSuggestions data, by simp [statusIsSuccess]⟩

/-- Witness for claim C4, instantiating each characterization at a
concrete response text: a text with no parenthesized suffix, a
non-JSON payload, a non-array payload, the `FAILURE` status example, and
a successful empty payload. -/
theorem claim_C4_witness :
    parseSuggestionsResponse "no parens here" = .error .MalformedEnvelope
    ∧ parseSuggestionsResponse "(notjson)" = .error .MalformedPayload
    ∧ parseSuggestionsResponse "(3)" = .error .UnexpectedShape
    ∧ parseSuggestionsResponse "([\"FAILURE\",\"quota exceeded\"])"
        = .error (.ProviderError (.str "FAILURE"))
    ∧ (∃ out, parseSuggestionsResponse
        "/*API*/_callbacks____x([\"SUCCESS\",[]])" = .ok out) :=
  ⟨(claim_C4.1 "no parens here").mpr ⟨rfl, rfl⟩,
   (claim_C4.2.1 "(notjson)" "notjson" rfl).mpr rfl,
   ((claim_C4.2.2.1 "(3)" "3" (.num "3") rfl rfl).mpr (by simp)),
   ((claim_C4.2.2.2.1 "([\"FAILURE\",\"quota exceeded\"])"
      "[\"FAILURE\",\"quota exceeded\"]" (.str "FAILURE")
      (.str "quota exceeded") [] rfl rfl).mpr (by simp)),
   claim_C4.2.2.2.2.2 "/*API*/_callbacks____x([\"SUCCESS\",[]])"
     "[\"SUCCESS\",[]]" (.str "SUCCESS") (.arr []) [] rfl rfl rfl⟩

theorem cacheLookup_wf :
    ∀ (cache : UrlCache) (k v : String),
      cacheWf cache → cacheLookup cache k = some v → v = urlFor k := by
  intro cache
  induction cache with
  | nil => intro k v _ h; simp [cacheLookup] at h
  | cons e rest ih =>
    intro k v hwf h
    obtain ⟨k1, v1⟩ := e
    by_cases hk : k1 = k
    · subst hk
      simp only [cacheLookup, if_pos rfl] at h
      obtain rfl : v1 = v := by injection h
      exact hwf (k1, v1) (List.mem_cons_self _ _)
    · simp only [cacheLookup, if_neg hk] at h
      exact ih k v (fun e he => hwf e (List.mem_cons_of_mem _ he)) h

/-- On a well-formed cache the builder's result is always the template
applied to the canonical input, hit or miss. -/
theorem buildSuggestionsUrl_fst (english : String) (chinese : Option String)
    (cache : UrlCache) (hwf : cacheWf cache) :
    (buildSuggestionsUrl english chinese cache).1 =
      urlFor (cacheInput english chinese) := by
  cases h : cacheLookup cache (cacheInput english chinese) with
  | some v =>
    have hv := cacheLookup_wf cache _ v hwf h
    simp [buildSuggestionsUrl, h, hv]
  | none => simp [buildSuggestionsUrl, h]

/-- Entries of the cache returned by the builder come from the incoming
cache or are the freshly built entry. -/
theorem mem_buildSuggestionsUrl_snd {english : String}
    {chinese : Option String} {cache : UrlCache} {e : String × String}
    (he : e ∈ (buildSuggestionsUrl english chinese cache).2) :
    e ∈ cache
    ∨ e = (cacheInput english chinese, urlFor (cacheInput english chinese)) := by
  revert he
  cases h : cacheLookup cache (cacheInput english chinese) with
  | some v =>
    intro he
    left
    simpa [buildSuggestionsUrl, h] using he
  | none =>
    intro he
    simp only [buildSuggestionsUrl, h] at he
    rw [List.mem_append] at he
    rcases he with he | he
    · left
      split at he
      · split at he
        · split at he
          · exact he
          · exact (List.mem_filter.mp he).1
        · exact he
      · exact he
    · right
      simpa using he

theorem buildSuggestionsUrl_wf (english : String) (chinese : Option String)
    (cache : UrlCache) (hwf : cacheWf cache) :
    cacheWf (buildSuggestionsUrl english chinese cache).2 := by
  intro e he
  rcases mem_buildSuggestionsUrl_snd he with h | h
  · exact hwf e h
  · rw [h]

theorem runCalls_wf :
    ∀ (calls : List (String × Option String)) (cache : UrlCache),
      cacheWf cache → cacheWf (runCalls calls cache) := by
  intro calls
  induction calls with
  | nil => intro cache h; exact h
  | cons c rest ih =>
    intro cache h
    exact ih _ (buildSuggestionsUrl_wf c.1 c.2 cache h)

theorem emptyCache_wf : cacheWf emptyCache := by
  intro e he
  simp [emptyCache] at he

/-- Claim C10: the builder is deterministic — at any point of any call
sequence, a call with given `(query, retained)` returns the same byte
string as on a fresh cache, and every returned locator carries the one
constant callback-name parameter. -/
theorem claim_C10 :
    ∀ (calls : List (String × Option String)) (q : String)
      (c : Option String),
      (buildSuggestionsUrl q c (runCalls calls emptyCache)).1 =
        (buildSuggestionsUrl q c emptyCache).1
      ∧ ∃ p, (buildSuggestionsUrl q c (runCalls calls emptyCache)).1 =
          p ++ ("&cb=" ++ callbackName) := by
  intro calls q c
  have h1 := buildSuggestionsUrl_fst q c _ (runCalls_wf calls emptyCache emptyCache_wf)
  have h2 := buildSuggestionsUrl_fst q c emptyCache emptyCache_wf
  constructor
  · rw [h1, h2]
  · refine ⟨"https://inputtools.google.com/request?text="
      ++ encodeURIComponent (cacheInput q c)
      ++ "&itc=yue-hant-t-i0-und&num=13&cp=0&cs=1&ie=utf-8&oe=utf-8&app=jsapi", ?_⟩
    rw [h1]
    unfold urlFor
    have hsplit :
        ("&itc=yue-hant-t-i0-und&num=13&cp=0&cs=1&ie=utf-8&oe=utf-8&app=jsapi&cb="
          : String)
        = "&itc=yue-hant-t-i0-und&num=13&cp=0&cs=1&ie=utf-8&oe=utf-8&app=jsapi"
          ++ "&cb=" := by rfl
    rw [hsplit]
    simp only [String.append_assoc]

/-- Counterexample to claim C2: for the query `""` — which is empty after
trimming — and no retained context, the builder does not fail; it returns
(and caches) an ordinary locator. -/
theorem claim_C2_counterexample :
    (buildSuggestionsUrl "" none emptyCache).1
      = "https://inputtools.google.com/request?text=&itc=yue-hant-t-i0-und&num=13&cp=0&cs=1&ie=utf-8&oe=utf-8&app=jsapi&cb=_callbacks____raycast"
    ∧ jsTrim "" = "" := ⟨rfl, rfl⟩

theorem cacheLookup_eq_none_iff (l : UrlCache) (k : String) :
    cacheLookup l k = none ↔ k ∉ l.map Prod.fst := by
  induction l with
  | nil => simp [cacheLookup]
  | cons e rest ih =>
    obtain ⟨k1, v1⟩ := e
    simp only [List.map_cons, List.mem_cons, cacheLookup]
    by_cases hk : k1 = k
    · subst hk
      simp
    · simp only [if_neg hk, ih]
      constructor
      · intro h hmem
        rcases hmem with h1 | h1
        · exact hk h1.symm
        · exact h h1
      · intro h hmem
        exact h (Or.inr hmem)

theorem cacheLookup_isSome_iff (l : UrlCache) (k : String) :
    (cacheLookup l k).isSome = true ↔ k ∈ l.map Prod.fst := by
  induction l with
  | nil => simp [cacheLookup]
  | cons e rest ih =>
    obtain ⟨k1, v1⟩ := e
    simp only [List.map_cons, List.mem_cons, cacheLookup]
    by_cases hk : k1 = k
    · subst hk
      simp
    · simp only [if_neg hk, ih]
      constructor
      · intro h
        exact Or.inr h
      · intro h
        rcases h with h1 | h1
        · exact absurd h1.symm hk
        · exact h1

theorem cacheLookup_append_none (l1 l2 : UrlCache) (k : String)
    (h : cacheLookup l1 k = none) :
    cacheLookup (l1 ++ l2) k = cacheLookup l2 k := by
  induction l1 with
  | nil => simp
  | cons e rest ih =>
    obtain ⟨k1, v1⟩ := e
    by_cases hk : k1 = k
    · simp [cacheLookup, hk] at h
    · simp only [cacheLookup, hk, if_neg, List.cons_append] at h ⊢
      exact ih h

theorem cacheLookup_append_some (l1 l2 : UrlCache) (k v : String)
    (h : cacheLookup l1 k = some v) :
    cacheLookup (l1 ++ l2) k = some v := by
  induction l1 with
  | nil => simp [cacheLookup] at h
  | cons e rest ih =>
    obtain ⟨k1, v1⟩ := e
    by_cases hk : k1 = k
    · simp only [cacheLookup, hk, if_pos, List.cons_append] at h ⊢
      exact h
    · simp only [cacheLookup, hk, if_neg, List.cons_append] at h ⊢
      exact ih h

theorem insertCalls_cons (k : String) (ks : List String) (cache : UrlCache) :
    insertCalls (k :: ks) cache =
      insertCalls ks (buildSuggestionsUrl k none cache).2 := rfl

theorem insertCalls_append (ks1 ks2 : List String) (cache : UrlCache) :
    insertCalls (ks1 ++ ks2) cache = insertCalls ks2 (insertCalls ks1 cache) := by
  simp [insertCalls, List.foldl_append]

/-- While the cache stays under capacity, inserting pairwise-distinct
fresh keys just appends their entries in order. -/
theorem insertCalls_fresh :
    ∀ (ks : List String) (cache : UrlCache),
      cache.length + ks.length ≤ 100 →
      ks.Nodup →
      (∀ k ∈ ks, cacheLookup cache k = none) →
      insertCalls ks cache = cache ++ ks.map fun k => (k, urlFor k) := by
  intro ks
  induction ks with
  | nil => intro cache _ _ _; simp [insertCalls]
  | cons k rest ih =>
    intro cache hlen hnodup hfresh
    have hk : cacheLookup cache k = none := hfresh k (by simp)
    have hlt : ¬ (100 ≤ cache.length) := by
      simp only [List.length_cons] at hlen
      omega
    have hbuild : (buildSuggestionsUrl k none cache).2 =
        cache ++ [(k, urlFor k)] := by
      simp [buildSuggestionsUrl, cacheInput, hk, hlt]
    have hrest : insertCalls rest (cache ++ [(k, urlFor k)]) =
        (cache ++ [(k, urlFor k)]) ++ rest.map fun k => (k, urlFor k) := by
      apply ih
      · simp only [List.length_append, List.length_cons,
          List.length_nil] at hlen ⊢
        omega
      · exact (List.nodup_cons.mp hnodup).2
      · intro k2 hk2
        have h1 : cacheLookup cache k2 = none :=
          hfresh k2 (List.mem_cons_of_mem _ hk2)
        have hne : k ≠ k2 := by
          intro he
          exact (List.nodup_cons.mp hnodup).1 (he ▸ hk2)
        rw [cacheLookup_append_none _ _ _ h1]
        simp [cacheLookup, hne]
    rw [insertCalls_cons, hbuild, hrest]
    simp

theorem buildSuggestionsUrl_inv (k : String) (hk : k ≠ "") (cache : UrlCache)
    (h : cacheInv cache) : cacheInv (buildSuggestionsUrl k none cache).2 := by
  obtain ⟨hlen0, hne, hnodup⟩ := h
  cases hl : cacheLookup cache (cacheInput k none) with
  | some v =>
    exact ⟨by simpa [buildSuggestionsUrl, hl] using hlen0,
      by intro e he; exact hne e (by simpa [buildSuggestionsUrl, hl] using he),
      by simpa [buildSuggestionsUrl, hl] using hnodup⟩
  | none =>
    have hnotmem : k ∉ cache.map Prod.fst := by
      have := (cacheLookup_eq_none_iff cache (cacheInput k none)).mp hl
      simpa [cacheInput] using this
    by_cases hcap : 100 ≤ cache.length
    · cases cache with
      | nil => simp at hcap
      | cons e t =>
        obtain ⟨k1, v1⟩ := e
        have hk1 : k1 ≠ "" := hne (k1, v1) (by simp)
        have hmapn : (k1 :: t.map Prod.fst).Nodup := by simpa using hnodup
        have hk1t : k1 ∉ t.map Prod.fst := (List.nodup_cons.mp hmapn).1
        have hfilter : (((k1, v1) :: t).filter fun e => e.1 ≠ k1) = t := by
          simp only [List.filter_cons]
          rw [if_neg (by simp)]
          rw [List.filter_eq_self.mpr]
          intro e he
          simp only [ne_eq, decide_eq_true_eq]
          intro hek1
          exact hk1t (hek1 ▸ List.mem_map_of_mem Prod.fst he)
        have hsnd : (buildSuggestionsUrl k none ((k1, v1) :: t)).2 =
            t ++ [(cacheInput k none, urlFor (cacheInput k none))] := by
          simp only [buildSuggestionsUrl, hl]
          rw [if_pos hcap]
          simp only [List.head?_cons]
          rw [if_neg hk1]
          rw [hfilter]
        rw [hsnd]
        simp only [cacheInput] at hnotmem ⊢
        refine ⟨?_, ?_, ?_⟩
        · simp only [List.length_append, List.length_cons, List.length_nil]
          simp only [List.length_cons] at hlen0
          omega
        · intro e he
          rcases List.mem_append.mp he with h1 | h1
          · exact hne e (List.mem_cons_of_mem _ h1)
          · simp at h1
            rw [h1]
            exact hk
        · simp only [List.map_append, List.map_cons, List.map_nil]
          rw [List.nodup_append]
          refine ⟨(List.nodup_cons.mp hmapn).2, by simp, ?_⟩
          intro a ha hb
          simp at hb
          subst hb
          exact hnotmem (by simp [ha])
    · have hsnd : (buildSuggestionsUrl k none cache).2 =
          cache ++ [(cacheInput k none, urlFor (cacheInput k none))] := by
        simp [buildSuggestionsUrl, hl, hcap]
      rw [hsnd]
      simp only [cacheInput] at hnotmem ⊢
      refine ⟨?_, ?_, ?_⟩
      · simp only [List.length_append, List.length_cons, List.length_nil]
        omega
      · intro e he
        rcases List.mem_append.mp he with h1 | h1
        · exact hne e h1
        · simp at h1
          rw [h1]
          exact hk
      · simp only [List.map_append, List.map_cons, List.map_nil]
        rw [List.nodup_append]
        refine ⟨hnodup, by simp, ?_⟩
        intro a ha hb
        simp at hb
        subst hb
        exact hnotmem ha

theorem insertCalls_inv :
    ∀ (ks : List String) (cache : UrlCache),
      (∀ k ∈ ks, k ≠ "") → cacheInv cache → cacheInv (insertCalls ks cache) := by
  intro ks
  induction ks with
  | nil => intro cache _ h; exact h
  | cons k rest ih =>
    intro cache hks h
    rw [insertCalls_cons]
    exact ih _ (fun k2 hk2 => hks k2 (List.mem_cons_of_mem _ hk2))
      (buildSuggestionsUrl_inv k (hks k (by simp)) cache h)

theorem emptyCache_inv : cacheInv emptyCache :=
  ⟨by simp [emptyCache], by intro e he; simp [emptyCache] at he,
   by simp [emptyCache]⟩

/-- Claim C9 (amended): with only non-empty keys the cache never exceeds
100 entries, and inserting 101 distinct non-empty keys into a fresh cache
evicts exactly the first-inserted key, keeps the 100 most recent, and
leaves the cache at 100 entries.  (The unamended claim fails when the
oldest key is the empty string: the `if (firstKey)` eviction guard treats
it as missing, see the counterexample.) -/
theorem claim_C9 :
    (∀ keys : List String, (∀ k ∈ keys, k ≠ "") →
        (insertCalls keys emptyCache).length ≤ 100)
    ∧ (∀ (k0 : String) (rest : List String),
        (k0 :: rest).Nodup → rest.length = 100 →
        (∀ k ∈ k0 :: rest, k ≠ "") →
        cacheLookup (insertCalls (k0 :: rest) emptyCache) k0 = none
        ∧ (∀ k ∈ rest,
            (cacheLookup (insertCalls (k0 :: rest) emptyCache) k).isSome = true)
        ∧ (insertCalls (k0 :: rest) emptyCache).length = 100) := by
  constructor
  · intro keys hne
    exact (insertCalls_inv keys emptyCache hne emptyCache_inv).1
  · intro k0 rest hnodup hlen hne
    have hrest_ne : rest ≠ [] := by
      intro h
      rw [h] at hlen
      simp at hlen
    have hrest_decomp : rest = rest.dropLast ++ [rest.getLast hrest_ne] :=
      (List.dropLast_append_getLast hrest_ne).symm
    have hdl_len : rest.dropLast.length = 99 := by
      rw [List.length_dropLast, hlen]
    have hfront_decomp : k0 :: rest =
        (k0 :: rest.dropLast) ++ [rest.getLast hrest_ne] := by
      rw [List.cons_append, ← hrest_decomp]
    have hfront_len : (k0 :: rest.dropLast).length = 100 := by
      simp [hdl_len]
    have hnodup2 : ((k0 :: rest.dropLast) ++ [rest.getLast hrest_ne]).Nodup :=
      hfront_decomp ▸ hnodup
    have hfront_nodup : (k0 :: rest.dropLast).Nodup :=
      (List.nodup_append.mp hnodup2).1
    have hkl_not_front : rest.getLast hrest_ne ∉ k0 :: rest.dropLast := by
      intro hmem
      exact (List.nodup_append.mp hnodup2).2.2 hmem (by simp)
    have hk0 : k0 ≠ "" := hne k0 (by simp)
    have hk0_not_dl : k0 ∉ rest.dropLast := (List.nodup_cons.mp hfront_nodup).1
    have hk0_not_rest : k0 ∉ rest := (List.nodup_cons.mp hnodup).1
    have hfront : insertCalls (k0 :: rest.dropLast) emptyCache
        = (k0 :: rest.dropLast).map fun k => (k, urlFor k) := by
      apply insertCalls_fresh
      · simp [emptyCache, hfront_len]
      · exact hfront_nodup
      · intro k _
        simp [emptyCache, cacheLookup]
    have hconskeys :
        (((k0, urlFor k0) :: rest.dropLast.map fun k => (k, urlFor k)).map
          Prod.fst) = k0 :: rest.dropLast := by
      simp only [List.map_cons, List.map_map]
      congr 1
      rw [show (Prod.fst ∘ fun k => (k, urlFor k)) = id from rfl, List.map_id]
    have hlkup : cacheLookup
        ((k0, urlFor k0) :: rest.dropLast.map fun k => (k, urlFor k))
        (rest.getLast hrest_ne) = none := by
      rw [cacheLookup_eq_none_iff, hconskeys]
      exact hkl_not_front
    have hfilter :
        (((k0, urlFor k0) :: rest.dropLast.map fun k => (k, urlFor k)).filter
          fun e => e.1 ≠ k0) = rest.dropLast.map fun k => (k, urlFor k) := by
      simp only [List.filter_cons]
      rw [if_neg (by simp)]
      rw [List.filter_eq_self.mpr]
      intro e he
      simp only [ne_eq, decide_eq_true_eq]
      intro hek
      apply hk0_not_dl
      obtain ⟨x, hx, rfl⟩ := List.mem_map.mp he
      simp only at hek
      exact hek ▸ hx
    have hsingle : insertCalls [rest.getLast hrest_ne]
        ((k0, urlFor k0) :: rest.dropLast.map fun k => (k, urlFor k))
        = (rest.dropLast.map fun k => (k, urlFor k))
          ++ [(rest.getLast hrest_ne, urlFor (rest.getLast hrest_ne))] := by
      rw [insertCalls_cons]
      show (buildSuggestionsUrl (rest.getLast hrest_ne) none
        ((k0, urlFor k0) :: rest.dropLast.map fun k => (k, urlFor k))).2 = _
      simp only [buildSuggestionsUrl, cacheInput, hlkup]
      rw [if_pos (by
        simp only [List.length_cons, List.length_map, hdl_len]
        omega)]
      simp only [List.head?_cons]
      rw [if_neg hk0]
      rw [hfilter]
    have hkeys : ((rest.dropLast.map fun k => (k, urlFor k))
          ++ [(rest.getLast hrest_ne, urlFor (rest.getLast hrest_ne))]).map
            Prod.fst = rest := by
      simp only [List.map_append, List.map_map, List.map_cons, List.map_nil]
      rw [show (Prod.fst ∘ fun k => (k, urlFor k)) = id from rfl]
      rw [List.map_id, ← hrest_decomp]
    rw [hfront_decomp, insertCalls_append, hfront, List.map_cons, hsingle]
    refine ⟨?_, ?_, ?_⟩
    · rw [cacheLookup_eq_none_iff, hkeys]
      exact hk0_not_rest
    · intro k hkmem
      rw [cacheLookup_isSome_iff, hkeys]
      exact hkmem
    · simp only [List.length_append, List.length_map, List.length_cons,
        List.length_nil, hdl_len]

set_option maxRecDepth 10000 in
/-- Counterexample to claim C9 as stated: inserting these 101 distinct
keys into a fresh cache leaves 101 entries — the capacity bound is
exceeded — and the first-inserted key is still present, because the
`if (firstKey)` guard skips eviction for the falsy empty-string key. -/
theorem claim_C9_counterexample :
    cKeys.length = 101 ∧ cKeys.Nodup
    ∧ (insertCalls cKeys emptyCache).length = 101
    ∧ cacheLookup (insertCalls cKeys emptyCache) "" ≠ none := by decide

set_option maxRecDepth 10000 in
/-- Witness for claim C9 at 101 concrete distinct non-empty keys. -/
theorem claim_C9_witness :
    ("z" :: wKeys).Nodup ∧ wKeys.length = 100
    ∧ (∀ k ∈ "z" :: wKeys, k ≠ "")
    ∧ (cacheLookup (insertCalls ("z" :: wKeys) emptyCache) "z" = none
       ∧ (∀ k ∈ wKeys,
           (cacheLookup (insertCalls ("z" :: wKeys) emptyCache) k).isSome = true)
       ∧ (insertCalls ("z" :: wKeys) emptyCache).length = 100) :=
  ⟨by decide, by decide, by decide,
   claim_C9.2 "z" wKeys (by decide) (by decide) (by decide)⟩

theorem ceil_div_eq_neg_div_neg (t s : Int) (hs : 1 ≤ s) :
    ⌈(t : ℚ) / (s : ℚ)⌉ = -(-t / s) := by
  have h1 : ⌈(t : ℚ) / (s : ℚ)⌉ = -⌊-((t : ℚ) / (s : ℚ))⌋ := by
    rw [Int.floor_neg]
    omega
  rw [h1, ← neg_div]
  have hd : ((s.toNat : ℕ) : ℚ) = (s : ℚ) := by
    norm_cast
    omega
  rw [show (-((t : ℚ)) = ((-t : ℤ) : ℚ)) from by push_cast; ring, ← hd]
  rw [Rat.floor_intCast_div_natCast]
  rw [Int.toNat_of_nonneg (by omega)]

/-- Claim C5: the pagination engine computes `safePageSize = max(1,
pageSize)`, `totalPages = max(1, ⌈totalItems / safePageSize⌉)`,
`clampedPage = min(requestedPageIndex, totalPages - 1)`, `hasNext` and
`hasPrevious` from the clamped page, `startIndex = clampedPage *
safePageSize` and `endIndex = startIndex + safePageSize`; and on
`(13, 6, 5)` it yields pages `3`, clamped page `2`, no next, a previous,
and the slice `[12, 18)`. -/
theorem claim_C5 :
    (∀ totalItems pageSize requestedPage : Int,
      0 ≤ totalItems → 0 ≤ requestedPage →
      (let r := usePagination totalItems pageSize requestedPage
       let safePageSize := max 1 pageSize
       let tp := max 1 ⌈(totalItems : ℚ) / ((safePageSize : Int) : ℚ)⌉
       let cp := min requestedPage (tp - 1)
       r.totalPages = tp ∧ r.currentPage = cp
       ∧ (r.hasNextPage = true ↔ cp < tp - 1)
       ∧ (r.hasPreviousPage = true ↔ 0 < cp)
       ∧ r.startIndex = cp * safePageSize
       ∧ r.endIndex = r.startIndex + safePageSize))
    ∧ usePagination 13 6 5 =
        { totalPages := 3, hasNextPage := false, hasPreviousPage := true,
          startIndex := 12, endIndex := 18, currentPage := 2 } := by
  constructor
  · intro totalItems pageSize requestedPage _ _
    have hceil : ⌈(totalItems : ℚ) / ((max 1 pageSize : Int) : ℚ)⌉
        = -(-totalItems / max 1 pageSize) :=
      ceil_div_eq_neg_div_neg totalItems (max 1 pageSize) (le_max_left 1 pageSize)
    simp only [usePagination]
    rw [hceil]
    refine ⟨rfl, rfl, by simp only [decide_eq_true_eq], by simp only [decide_eq_true_eq], rfl, by ring⟩
  · decide

/-- Witness for claim C5 at the documented instance `(13, 6, 5)`. -/
theorem claim_C5_witness :
    (0 : Int) ≤ 13 ∧ (0 : Int) ≤ 5 ∧
    (let r := usePagination 13 6 5
     let safePageSize := max 1 (6 : Int)
     let tp := max 1 ⌈((13 : Int) : ℚ) / ((safePageSize : Int) : ℚ)⌉
     let cp := min (5 : Int) (tp - 1)
     r.totalPages = tp ∧ r.currentPage = cp
     ∧ (r.hasNextPage = true ↔ cp < tp - 1)
     ∧ (r.hasPreviousPage = true ↔ 0 < cp)
     ∧ r.startIndex = cp * safePageSize
     ∧ r.endIndex = r.startIndex + safePageSize) :=
  ⟨by decide, by decide, claim_C5.1 13 6 5 (by decide) (by decide)⟩

/-- Claim C2 (amended): the URL builder performs no emptiness validation
and never fails — for a query that is empty after trimming (retained
context supplied or not) it still returns the locator for the canonical
key.  The emptiness precondition lives in the caller: the `suggestionsUrl`
memo yields no locator, and the fetch hook's execute flag stays off, when
the trimmed query segment is empty. -/
theorem claim_C2 :
    (∀ (query : String) (chinese : Option String) (cache : UrlCache),
        cacheWf cache → jsTrim query = "" →
        (buildSuggestionsUrl query chinese cache).1 =
          urlFor (cacheInput query chinese))
    ∧ (∀ (numericLastIndex : Bool) (debounced : String) (cache : UrlCache),
        jsTrim (separateG numericLastIndex debounced).2.1 = "" →
        (suggestionsUrl numericLastIndex debounced cache).1 = ""
        ∧ executeFetch (suggestionsUrl numericLastIndex debounced cache).1
            = false) := by
  constructor
  · intro q c cache hwf _
    exact buildSuggestionsUrl_fst q c cache hwf
  · intro b t cache h
    by_cases ht : jsTrim t = ""
    · constructor <;> simp [suggestionsUrl, ht, executeFetch]
    · constructor <;> simp [suggestionsUrl, ht, h, executeFetch]

/-- Witness for claim C2: the builder at the empty query with a retained
context, and the caller guard at an all-CJK buffer. -/
theorem claim_C2_witness :
    cacheWf emptyCache ∧ jsTrim "" = ""
    ∧ (buildSuggestionsUrl "" (some "你") emptyCache).1
        = urlFor (cacheInput "" (some "你"))
    ∧ jsTrim (separateG false "你").2.1 = ""
    ∧ ((suggestionsUrl false "你" emptyCache).1 = ""
       ∧ executeFetch (suggestionsUrl false "你" emptyCache).1 = false) :=
  ⟨emptyCache_wf, rfl,
   claim_C2.1 "" (some "你") emptyCache emptyCache_wf rfl,
   by decide, claim_C2.2 false "你" emptyCache (by decide)⟩

/-- The regex segmenter is its character fold, uniformly over the empty
and non-empty cases. -/
theorem separateG_eq (b : Bool) (s : String) :
    separateG b s = (⟨(s.data.foldl sepStep ([], [], b)).1⟩,
                     ⟨(s.data.foldl sepStep ([], [], b)).2.1⟩,
                     (s.data.foldl sepStep ([], [], b)).2.2) := by
  by_cases hs : s = ""
  · subst hs
    rfl
  · simp only [separateG, hs, if_false]

/-- Claim C6: a buffer-change event ending in a digit `n ∈ [1,6]`,
matching base+digit (`SELECTION_REGEX` requires the base to be free of
line terminators, which `.` cannot match), whose position exists on the
current page performs selection — the new buffer
is the CJK segment of the pre-event buffer (second conjunct: the chinese
segment is always exactly the CJK filter) followed by the unmodified
candidate text, the selection flag is set, and the candidate list is
cleared without any fetch; the documented `"nei5"` instance produces the
buffer `"你"`. -/
theorem claim_C6 :
    (∀ (st : AppState) (text : String) (n : Nat) (cand : String),
      1 ≤ n → n ≤ 6 →
      text.data.getLast? = some (Char.ofNat (48 + n)) →
      text.data.dropLast.all (fun ch => !isLineTerm ch) = true →
      (paginatedSuggestions st)[n - 1]? = some cand →
      handleSearchTextChange st text =
        { searchText := (separateG st.numericLastIndex st.searchText).1 ++ cand,
          hasSelectedSuggestion := true,
          currentPage := st.currentPage,
          suggestions := [],
          numericLastIndex :=
            (separateG st.numericLastIndex st.searchText).2.2 })
    ∧ (∀ (b : Bool) (s : String), (separateG b s).1.data = s.data.filter isCjk)
    ∧ handleSearchTextChange
        ⟨"nei", false, 0, ["一", "二", "三", "四", "你"], false⟩ "nei5"
      = ⟨"你", true, 0, [], false⟩ := by
  refine ⟨?_, ?_, by decide⟩
  · intro st text n cand h1 h6 hlast hbase hcand
    have hmem : Char.ofNat (48 + n) ∈ NUMERIC_KEYS := by
      interval_cases n <;> decide
    have hval : (Char.ofNat (48 + n)).toNat - 48 = n := by
      interval_cases n <;> decide
    have key : ∀ st1 : AppState,
        paginatedSuggestions st1 = paginatedSuggestions st →
        handleSuggestionSelect st1 cand = handleSuggestionSelect st cand →
        handleNumericAction st1 text = some (handleSuggestionSelect st cand) := by
      intro st1 hp hsame
      simp only [handleNumericAction, hlast]
      rw [if_pos hmem, if_pos hbase]
      simp only [hval]
      rw [if_pos ⟨h1, h6⟩]
      rw [hp, hcand]
      simp only [hsame]
    unfold handleSearchTextChange
    by_cases htr : jsTrim text = ""
    · rw [if_pos htr]
      simp only [key { st with hasSelectedSuggestion := false } rfl rfl]
      rfl
    · rw [if_neg htr]
      simp only [key st rfl rfl]
      rfl
  · intro b s
    rw [separateG_eq]
    show (s.data.foldl sepStep ([], [], b)).1 = _
    rw [foldl_sepStep_fst]
    rfl

/-- Witness for claim C6 at the documented `"nei5"` instance. -/
theorem claim_C6_witness :
    1 ≤ 5 ∧ 5 ≤ 6
    ∧ ("nei5" : String).data.getLast? = some (Char.ofNat (48 + 5))
    ∧ ("nei5" : String).data.dropLast.all (fun ch => !isLineTerm ch) = true
    ∧ (paginatedSuggestions
        ⟨"nei", false, 0, ["一", "二", "三", "四", "你"], false⟩)[5 - 1]?
        = some "你"
    ∧ handleSearchTextChange
        ⟨"nei", false, 0, ["一", "二", "三", "四", "你"], false⟩ "nei5"
      = { searchText := (separateG false "nei").1 ++ "你",
          hasSelectedSuggestion := true,
          currentPage := 0,
          suggestions := [],
          numericLastIndex := (separateG false "nei").2.2 } :=
  ⟨by decide, by decide, by decide, by decide, by decide,
   claim_C6.1 ⟨"nei", false, 0, ["一", "二", "三", "四", "你"], false⟩
     "nei5" 5 "你" (by decide) (by decide) (by decide) (by decide) (by decide)⟩

